import Mathlib

/-!
Shallow embedding of the quorum memcache client (`src/memcache/client.go`)
of the beanseye proxy, together with proofs about its operations.

Modelling conventions:
- A backend (`Host`) is a scripted collaborator: its reply to each of the
  six per-key operations is part of the model input, mirroring the
  collaborator interface (`get -> (*Item, error)`, etc.).  A reply carrying
  a Go `error` is modelled by `Except Nat`/a dedicated constructor; the Go
  convention that the value result is `nil` when the error is non-nil is
  built into the reply type.
- Wall-clock latency is not modelled numerically: the `-sqrt(t)*t` latency
  feedback is recorded as the symbolic `Score.latency` event.
- Feedback calls made to the scheduler are recorded in an event log
  (`fb` fields), in call order; the log is ghost output that does not
  influence control flow, exactly as in the source.
- Go slices are Lean lists (capacity = length); `hosts[:3]` on a slice of
  fewer than three backends is a bounds panic, modelled by `Option`
  results (`none` = panic), as is `keys[0]` on an empty key list.
- Go ints N, W, R and loop counters are Nat (the configuration values are
  counts); backend counter values for `Incr` are Int, matching Go `int`.
- `GetMulti`'s concurrent per-shard fan-out is sequentialised in bucket
  order; the properties proved about its merge step are per-task and do
  not depend on completion order.
-/

namespace Beanseye

/-- A cached value; opaque payload, never inspected by the client. -/
structure Item where
  val : Nat
deriving DecidableEq, Repr

/-- Go `error` values visible at the client boundary: an error returned by a
backend (tagged with an identifying code) or the client's own
`errors.New("write failed")`. -/
inductive GoErr where
  | backend (code : Nat)
  | writeFailed
deriving DecidableEq, Repr

/-- The score argument of a `Feedback` call: the fixed `-10` fault penalty,
the fixed `-1` skipped-ahead penalty, the fixed `-2` write-failure penalty,
or the latency-dependent `-sqrt(t)*t` score (symbolic, since wall-clock
time is outside the model). -/
inductive Score where
  | fault10
  | flat1
  | flat2
  | latency
deriving DecidableEq, Repr

/-- One `scheduler.Feedback(host, key, score, isFault)` call. -/
structure Feedback where
  addr : String
  key : String
  score : Score
  isFault : Bool
deriving DecidableEq, Repr

/-- Reply of one backend to `Get`: transport error, found nothing
(`r = nil, err = nil`), or found an item. -/
inductive GetReply where
  | err (code : Nat)
  | miss
  | hit (it : Item)
deriving DecidableEq, Repr

/-- A backend handle: an address plus its scripted replies to the six
per-key operations.  `getMultiReply` may depend on the key list it is
asked for, as the source re-asks only still-missing keys. -/
structure Host where
  Addr : String
  getReply : GetReply
  getMultiReply : List String → Except Nat (List (String × Item))
  setReply : Except Nat Bool
  appendReply : Except Nat Bool
  incrReply : Except Nat Int
  deleteReply : Except Nat Bool

/-- The ranking provider: ranked backend list per key, and the partition of
a key batch into per-bucket groups. -/
structure Scheduler where
  getHostsByKey : String → List Host
  divideKeysByBucket : List String → List (List String)

/-- The quorum client: a scheduler plus the N/W/R tunables. -/
structure Client where
  scheduler : Scheduler
  N : Nat
  W : Nat
  R : Nat

/-- Result of `Client.Get`, with two ghost fields: `contacted` is the list
of backend addresses read, in order, and `fb` the feedback log. -/
structure GetRes where
  r : Option Item
  targets : List String
  err : Option GoErr
  contacted : List String
  fb : List Feedback
deriving DecidableEq, Repr

/-- The loop of `Client.Get` (client.go:40-69).  `hosts` is the full ranked
list (needed for `hosts[j]` with `j < i` and for `hosts[:3]`), the explicit
list argument is the remaining suffix `hosts[i:]`.  `r0`/`e0` are the
current values of the named return variables `r`/`err`.  Returns `none`
when `hosts[:3]` would panic. -/
def getLoop (R N : Nat) (key : String) (hosts : List Host) :
    List Host → Nat → Nat → Option Item → Option GoErr → List String → List Feedback →
    Option GetRes
  | [], _, _, r0, e0, con, fb => some ⟨r0, [], e0, con, fb⟩
  | h :: rest, i, cnt, _, _, con, fb =>
    let con := con ++ [h.Addr]
    match h.getReply with
    | .err e =>
      let fb := fb ++ [⟨h.Addr, key, .fault10, true⟩]
      if cnt ≥ R ∧ i + 1 ≥ N then
        if hosts.length < 3 then none
        else some ⟨none, (hosts.take 3).map (·.Addr), none, con, fb⟩
      else getLoop R N key hosts rest (i + 1) cnt none (some (.backend e)) con fb
    | .miss =>
      if cnt + 1 ≥ R ∧ i + 1 ≥ N then
        if hosts.length < 3 then none
        else some ⟨none, (hosts.take 3).map (·.Addr), none, con, fb⟩
      else getLoop R N key hosts rest (i + 1) (cnt + 1) none none con fb
    | .hit it =>
      let fb := fb ++ [⟨h.Addr, key, .latency, false⟩]
                   ++ (hosts.take i).map (fun hj => ⟨hj.Addr, key, .flat1, false⟩)
      some ⟨some it, [h.Addr], none, con, fb⟩

/-- `Client.Get` (client.go:37-72). -/
def clientGet (c : Client) (key : String) : Option GetRes :=
  let hosts := c.scheduler.getHostsByKey key
  getLoop c.R c.N key hosts hosts 0 0 none none [] []

/-- Whether a backend's `Get` reply is free of transport error (the
condition under which the source increments `cnt`). -/
def isGetOk (h : Host) : Bool :=
  match h.getReply with
  | .err _ => false
  | _ => true

/-- Number of backends in a list whose `Get` reply is not a transport
error — the amount by which the loop counter `cnt` grows over that list. -/
def okCount (l : List Host) : Nat :=
  (l.filter isGetOk).length

/-- A convenient scripted backend for tests and witnesses: fixed `Get`
reply, benign replies everywhere else. -/
def mkHost (a : String) (g : GetReply) : Host :=
  ⟨a, g, fun _ => .ok [], .ok true, .ok true, .ok 1, .ok true⟩

/-- A client whose scheduler always returns the same ranked list. -/
def mkClient (hosts : List Host) (N W R : Nat) : Client :=
  ⟨⟨fun _ => hosts, fun ks => [ks]⟩, N, W, R⟩

/-- Whether a backend reply acknowledges a write: `err == nil && ok`. -/
def ackOk : Except Nat Bool → Bool
  | .ok true => true
  | _ => false

/-- `ackOk` on an errored reply. -/
@[simp] theorem ackOk_error (e : Nat) : ackOk (Except.error e) = false := rfl

/-- `ackOk` on an error-free reply. -/
@[simp] theorem ackOk_ok (b : Bool) : ackOk (Except.ok b) = b := by cases b <;> rfl

/-- Result of `Client.Set` / `Client.Append`; `contacted` and `fb` are
ghost observability fields as in `GetRes`. -/
structure SetRes where
  ok : Bool
  targets : List String
  final_err : Option GoErr
  contacted : List String
  fb : List Feedback
deriving DecidableEq, Repr

/-- The loop of `Client.Set` (client.go:157-168): per backend, success iff
`err == nil && ok`; on failure a fixed `-2` non-fault feedback; break once
`suc >= W && i+1 >= N`.  Returns the loop state at exit. -/
def setLoop (W N : Nat) (key : String) :
    List Host → Nat → Nat → List String → List String → List Feedback →
    Nat × List String × List String × List Feedback
  | [], _, suc, tg, con, fb => (suc, tg, con, fb)
  | h :: rest, i, suc, tg, con, fb =>
    let con := con ++ [h.Addr]
    let good := ackOk h.setReply
    let suc := if good then suc + 1 else suc
    let tg := if good then tg ++ [h.Addr] else tg
    let fb := if good then fb else fb ++ [⟨h.Addr, key, .flat2, false⟩]
    if suc ≥ W ∧ i + 1 ≥ N then (suc, tg, con, fb)
    else setLoop W N key rest (i + 1) suc tg con fb

/-- `Client.Set` (client.go:155-176).  The `item` and `noreply` arguments
only flow to the backends, whose replies are scripted, so they do not
appear among the loop's inputs. -/
def clientSet (c : Client) (key : String) (_item : Item) (_noreply : Bool) : SetRes :=
  let (suc, tg, con, fb) := setLoop c.W c.N key (c.scheduler.getHostsByKey key) 0 0 [] [] []
  if suc < c.W then ⟨false, tg, some .writeFailed, con, fb⟩
  else ⟨true, tg, none, con, fb⟩

/-- The loop of `Client.Append` (client.go:180-189): same shape as `Set`
but no feedback call anywhere; the `fb` accumulator is threaded through
untouched, mirroring the absence of `scheduler.Feedback` in the source. -/
def appendLoop (W N : Nat) :
    List Host → Nat → Nat → List String → List String → List Feedback →
    Nat × List String × List String × List Feedback
  | [], _, suc, tg, con, fb => (suc, tg, con, fb)
  | h :: rest, i, suc, tg, con, fb =>
    let con := con ++ [h.Addr]
    let good := ackOk h.appendReply
    let suc := if good then suc + 1 else suc
    let tg := if good then tg ++ [h.Addr] else tg
    if suc ≥ W ∧ i + 1 ≥ N then (suc, tg, con, fb)
    else appendLoop W N rest (i + 1) suc tg con fb

/-- `Client.Append` (client.go:178-197). -/
def clientAppend (c : Client) (key : String) (_value : List Nat) : SetRes :=
  let (suc, tg, con, fb) := appendLoop c.W c.N (c.scheduler.getHostsByKey key) 0 0 [] [] []
  if suc < c.W then ⟨false, tg, some .writeFailed, con, fb⟩
  else ⟨true, tg, none, con, fb⟩

/-- Result of `Client.Incr`. -/
structure IncrRes where
  result : Int
  targets : List String
  err : Option GoErr
  contacted : List String
deriving DecidableEq, Repr

/-- The loop of `Client.Incr` (client.go:202-219): on backend error record
it and `continue` (skipping the break check); count a success only when the
returned value is `> 0`; keep the running maximum; break once
`suc >= W && i+1 >= N`. -/
def incrLoop (W N : Nat) :
    List Host → Nat → Nat → Int → List String → Option GoErr → List String →
    Int × List String × Option GoErr × List String
  | [], _, _, result, tg, err, con => (result, tg, err, con)
  | h :: rest, i, suc, result, tg, err, con =>
    let con := con ++ [h.Addr]
    match h.incrReply with
    | .error e => incrLoop W N rest (i + 1) suc result tg (some (.backend e)) con
    | .ok r =>
      let suc := if r > 0 then suc + 1 else suc
      let tg := if r > 0 then tg ++ [h.Addr] else tg
      let result := if r > result then r else result
      if suc ≥ W ∧ i + 1 ≥ N then (result, tg, err, con)
      else incrLoop W N rest (i + 1) suc result tg err con

/-- `Client.Incr` (client.go:199-225). -/
def clientIncr (c : Client) (key : String) (_value : Int) : IncrRes :=
  let (result, tg, err, con) := incrLoop c.W c.N (c.scheduler.getHostsByKey key) 0 0 0 [] none []
  if result > 0 then ⟨result, tg, none, con⟩ else ⟨result, tg, err, con⟩

/-- Result of `Client.Delete`. -/
structure DelRes where
  r : Bool
  targets : List String
  err : Option GoErr
  contacted : List String
deriving DecidableEq, Repr

/-- The loop of `Client.Delete` (client.go:230-242): count backend errors
and confirmed deletions separately; break once `suc >= N` (the success
counter against N — the attempt index is not consulted). -/
def deleteLoop (N : Nat) :
    List Host → Nat → Nat → List String → Option GoErr → List String →
    Nat × Nat × List String × Option GoErr × List String
  | [], suc, ec, tg, err, con => (suc, ec, tg, err, con)
  | h :: rest, suc, ec, tg, err, con =>
    let con := con ++ [h.Addr]
    match h.deleteReply with
    | .error e =>
      if suc ≥ N then (suc, ec + 1, tg, some (.backend e), con)
      else deleteLoop N rest suc (ec + 1) tg (some (.backend e)) con
    | .ok true =>
      if suc + 1 ≥ N then (suc + 1, ec, tg ++ [h.Addr], err, con)
      else deleteLoop N rest (suc + 1) ec (tg ++ [h.Addr]) err con
    | .ok false =>
      if suc ≥ N then (suc, ec, tg, err, con)
      else deleteLoop N rest suc ec tg err con

/-- `Client.Delete` (client.go:227-252): success iff at least one confirmed
deletion or fewer than two backend errors; on success the error is
cleared, otherwise the last backend error is returned. -/
def clientDelete (c : Client) (key : String) : DelRes :=
  let (suc, ec, tg, err, con) := deleteLoop c.N (c.scheduler.getHostsByKey key) 0 0 [] none []
  if suc > 0 ∨ ec < 2 then ⟨true, tg, none, con⟩ else ⟨false, tg, err, con⟩

/-- Go-map assignment `m[k] = v` on an association list: overwrite the
existing binding or append a new one. -/
def mapInsert (m : List (String × Item)) (k : String) (v : Item) : List (String × Item) :=
  if m.any (fun p => p.1 = k) then m.map (fun p => if p.1 = k then (k, v) else p)
  else m ++ [(k, v)]

/-- Result of the single-shard `Client.getMulti`. -/
structure GMRes where
  rs : List (String × Item)
  targets : List String
  err : Option GoErr
  contacted : List String
  fb : List Feedback
deriving DecidableEq, Repr

/-- Success-counter step of one `getMulti` iteration (`suc += 1` only on an
error-free reply). -/
def gmStepSuc (suc : Nat) (reply : Except Nat (List (String × Item))) : Nat :=
  match reply with
  | .error _ => suc
  | .ok _ => suc + 1

/-- Merge step of one `getMulti` iteration: `for k, v := range r` with
`rs[k] = v`; on an errored reply `r` is nil and nothing is merged. -/
def gmStepMerge (rs : List (String × Item)) (reply : Except Nat (List (String × Item))) :
    List (String × Item) :=
  match reply with
  | .error _ => rs
  | .ok m => m.foldl (fun acc p => mapInsert acc p.1 p.2) rs

/-- The loop of `Client.getMulti` (client.go:79-115).  `need` is the
original key count; `keys` shrinks to the still-missing keys.  Exits:
all keys found; quorum (`i+1 >= N && suc >= R`) with error cleared and
targets reset; no keys left; list exhausted. -/
def gmLoop (N R need : Nat) (key0 : String) :
    List Host → List String → Nat → Nat → List (String × Item) → List String →
    Option GoErr → List String → List Feedback → GMRes
  | [], _, _, _, rs, tg, err, con, fb => ⟨rs, tg, err, con, fb⟩
  | h :: rest, keys, i, suc, rs, tg, err, con, fb =>
    let con := con ++ [h.Addr]
    let reply := h.getMultiReply keys
    let suc := gmStepSuc suc reply
    let tg := match reply with | .error _ => tg | .ok _ => tg ++ [h.Addr]
    let err := match reply with | .error e => some (GoErr.backend e) | .ok _ => err
    let fb := (match reply with
               | .error _ => fb ++ [⟨h.Addr, key0, .fault10, true⟩]
               | .ok _ => fb) ++ [⟨h.Addr, key0, .latency, false⟩]
    let rs := gmStepMerge rs reply
    if rs.length = need then ⟨rs, tg, err, con, fb⟩
    else if i + 1 ≥ N ∧ suc ≥ R then ⟨rs, [], none, con, fb⟩
    else
      let keys := keys.filter (fun k => ¬ rs.any (fun p => p.1 = k))
      if keys.isEmpty then ⟨rs, tg, err, con, fb⟩
      else gmLoop N R need key0 rest keys (i + 1) suc rs tg err con fb

/-- `Client.getMulti` (client.go:74-120): routes by `keys[0]` (a panic,
modelled as `none`, when the key list is empty) and applies the final rule
`len(rs) > 0 → err = nil`. -/
def clientGetMulti (c : Client) (keys : List String) : Option GMRes :=
  match keys with
  | [] => none
  | k0 :: _ =>
    let hosts := c.scheduler.getHostsByKey k0
    let res := gmLoop c.N c.R keys.length k0 hosts keys 0 0 [] [] none [] []
    some (if res.rs.length > 0 then { res with err := none } else res)

/-- Accumulator of the top-level `Client.GetMulti` merge. -/
structure TopAcc where
  rs : List (String × Item)
  targets : List String
  err : Option GoErr
deriving DecidableEq, Repr

/-- The body of one shard task's merge in `Client.GetMulti`
(client.go:131-141): on a shard error only the shared error is
overwritten; otherwise, for every key of the shard's result map, the pair
is stored and the shard's whole target list is appended once. -/
def mergeTask (acc : TopAcc) (r : List (String × Item)) (t : List String)
    (e : Option GoErr) : TopAcc :=
  match e with
  | some e => { acc with err := some e }
  | none =>
    let (rs, tg) := r.foldl (fun a p => (mapInsert a.1 p.1 p.2, a.2 ++ t)) (acc.rs, acc.targets)
    { acc with rs := rs, targets := tg }

/-- `Client.GetMulti` (client.go:122-153), with the concurrent shard tasks
sequentialised in bucket order (the merge properties proved below are
per-task and order-independent).  Empty shard groups are skipped, exactly
as in the source, so `clientGetMulti` is never applied to an empty key
list (the `none` branch is unreachable). -/
def clientGetMultiTop (c : Client) (keys : List String) : TopAcc :=
  (c.scheduler.divideKeysByBucket keys).foldl
    (fun acc ks =>
      if ks.length > 0 then
        match clientGetMulti c ks with
        | none => acc
        | some res => mergeTask acc res.rs res.targets res.err
      else acc)
    ⟨[], [], none⟩

/-! ### Helper lemmas about the `GetMulti` merge step -/

/-- The target component of the per-key merge fold appends the shard's
target list once per merged key. -/
theorem mergeFold_targets (t : List String) :
    ∀ (r rs : List (String × Item)) (tg : List String),
      (r.foldl (fun a p => (mapInsert a.1 p.1 p.2, a.2 ++ t)) (rs, tg)).2
        = tg ++ (r.map (fun _ => t)).flatten := by
  intro r
  induction r with
  | nil => intro rs tg; simp
  | cons p r ih => intro rs tg; simp [ih, List.append_assoc]

/-- Counting occurrences in `n` concatenated copies of `t`. -/
theorem count_flatten_replicate (t : List String) (a : String) :
    ∀ (n : Nat), ((List.replicate n t).flatten).count a = n * t.count a := by
  intro n
  induction n with
  | zero => simp
  | succ n ih =>
    rw [List.replicate_succ, List.flatten_cons, List.count_append, ih]
    ring

/-- Counting occurrences in `r.length` concatenated copies of `t`. -/
theorem flatten_const_count (t : List String) (a : String) :
    ∀ (r : List (String × Item)), ((r.map (fun _ => t)).flatten).count a = r.length * t.count a := by
  intro r
  induction r with
  | nil => simp
  | cons p r ih =>
    rw [List.map_cons, List.flatten_cons, List.count_append, ih, List.length_cons]
    ring

/-- Claim C10: in the merge step of `GetMulti`, a shard task that returns
without error appends its entire target list to the merged targets once
per key of its result map (so an address occurs `|r|·(occurrences in t)`
extra times); a shard that returns an error, or resolves zero keys,
contributes no targets (and, for an error, no result entries). -/
theorem getmulti_merge_targets_per_key :
    ∀ (acc : TopAcc) (r : List (String × Item)) (t : List String) (e : GoErr) (a : String),
      (mergeTask acc r t none).targets = acc.targets ++ (r.map (fun _ => t)).flatten ∧
      (mergeTask acc r t none).targets.count a
        = acc.targets.count a + r.length * t.count a ∧
      mergeTask acc r t (some e) = { acc with err := some e } ∧
      (r = [] → mergeTask acc r t none = acc) := by
  intro acc r t e a
  refine ⟨?_, ?_, rfl, ?_⟩
  · simp [mergeTask, mergeFold_targets]
  · simp [mergeTask, mergeFold_targets, List.count_append, count_flatten_replicate]
  · rintro rfl
    rfl

/-- Witness for C10 at a concrete input: merging a two-key shard result
with target list `["X", "Y"]` repeats the pair twice. -/
theorem getmulti_merge_targets_per_key_witness :
    (mergeTask ⟨[], ["t0"], none⟩ [("a", ⟨1⟩), ("b", ⟨2⟩)] ["X", "Y"] none).targets
        = ["t0"] ++ ([["X", "Y"], ["X", "Y"]] : List (List String)).flatten ∧
      (mergeTask ⟨[], ["t0"], none⟩ [("a", ⟨1⟩), ("b", ⟨2⟩)] ["X", "Y"] none).targets.count "X"
        = (["t0"] : List String).count "X" + 2 * ((["X", "Y"] : List String).count "X") ∧
      mergeTask (⟨[], ["t0"], none⟩ : TopAcc) [("a", ⟨1⟩), ("b", ⟨2⟩)] ["X", "Y"] (some (.backend 0))
        = { (⟨[], ["t0"], none⟩ : TopAcc) with err := some (.backend 0) } ∧
      (([("a", ⟨1⟩), ("b", ⟨2⟩)] : List (String × Item)) = [] →
        mergeTask ⟨[], ["t0"], none⟩ [("a", ⟨1⟩), ("b", ⟨2⟩)] ["X", "Y"] none = ⟨[], ["t0"], none⟩) := by
  have h := getmulti_merge_targets_per_key ⟨[], ["t0"], none⟩
    [("a", ⟨1⟩), ("b", ⟨2⟩)] ["X", "Y"] (.backend 0) "X"
  simpa using h

/-! ### Totality / panic analysis (claim C3) -/

/-- Counterexample for C3 as stated: with a single-backend candidate list
and `N = R = 1`, `Get` reaches the confirmed-miss branch and `hosts[:3]`
is a bounds panic (modelled `none`); `getMulti` on an empty key batch
panics on `keys[0]`. -/
theorem get_short_hostlist_panics_cex :
    clientGet (mkClient [mkHost "a" .miss] 1 1 1) "k" = none ∧
    clientGetMulti (mkClient [mkHost "a" .miss] 1 1 1) [] = none := by
  constructor <;> rfl

/-- `getLoop` can only panic through the `hosts[:3]` slice, so it returns a
result whenever the full ranked list has at least three entries. -/
theorem getLoop_isSome (R N : Nat) (key : String) (hosts : List Host)
    (hlen : 3 ≤ hosts.length) :
    ∀ (rest : List Host) (i cnt : Nat) (r0 : Option Item) (e0 : Option GoErr)
      (con : List String) (fb : List Feedback),
      (getLoop R N key hosts rest i cnt r0 e0 con fb).isSome = true := by
  intro rest
  induction rest with
  | nil => intro i cnt r0 e0 con fb; rfl
  | cons h rest ih =>
    intro i cnt r0 e0 con fb
    have hlt : ¬ hosts.length < 3 := by omega
    cases hg : h.getReply with
    | err e =>
      by_cases hc : cnt ≥ R ∧ i + 1 ≥ N
      · simp [getLoop, hg, hc, hlt]
      · simp [getLoop, hg, hc, ih]
    | miss =>
      by_cases hc : cnt + 1 ≥ R ∧ i + 1 ≥ N
      · simp [getLoop, hg, hc, hlt]
      · simp [getLoop, hg, hc, ih]
    | hit it => simp [getLoop, hg]

/-- Claim C3, amended: provided the ranked candidate list has at least
three backends, `Get` completes without panicking; provided the key batch
is non-empty, `getMulti` completes without panicking.  (The write paths
`Set`, `Append`, `Incr`, `Delete` are total by construction.)  Without
those provisos the operations can panic, see the counterexample. -/
theorem no_panic_with_three_hosts_and_keys :
    ∀ (c : Client) (key : String) (keys : List String),
      (3 ≤ (c.scheduler.getHostsByKey key).length → (clientGet c key).isSome = true) ∧
      (keys ≠ [] → (clientGetMulti c keys).isSome = true) := by
  intro c key keys
  constructor
  · intro hlen
    exact getLoop_isSome c.R c.N key _ hlen _ 0 0 none none [] []
  · intro hk
    cases keys with
    | nil => exact absurd rfl hk
    | cons k0 ks => simp [clientGetMulti]

/-- Witness for C3's amended theorem: three miss backends, one-key batch. -/
theorem no_panic_with_three_hosts_and_keys_witness :
    (3 ≤ ((mkClient [mkHost "a" .miss, mkHost "b" .miss, mkHost "c" .miss] 3 2 2).scheduler.getHostsByKey "k").length →
      (clientGet (mkClient [mkHost "a" .miss, mkHost "b" .miss, mkHost "c" .miss] 3 2 2) "k").isSome = true) ∧
    ((["k"] : List String) ≠ [] →
      (clientGetMulti (mkClient [mkHost "a" .miss, mkHost "b" .miss, mkHost "c" .miss] 3 2 2) ["k"]).isSome = true) :=
  no_panic_with_three_hosts_and_keys
    (mkClient [mkHost "a" .miss, mkHost "b" .miss, mkHost "c" .miss] 3 2 2) "k" ["k"]

/-! ### Delete characterization (claims C4, C5) -/

/-- Whether a backend's `Delete` reply is a transport error. -/
def delErrH (h : Host) : Bool :=
  match h.deleteReply with
  | .error _ => true
  | .ok _ => false

/-- Number of confirmed deletions (`er == nil && ok`) in a list. -/
def delConfirms (l : List Host) : Nat :=
  (l.filter (fun h => ackOk h.deleteReply)).length

/-- Number of backend errors observed in a list. -/
def delErrs (l : List Host) : Nat :=
  (l.filter delErrH).length

/-- The value of the `err` variable after walking a list: the last backend
error, if any, else the initial value. -/
def lastDelErrFrom (e0 : Option GoErr) (l : List Host) : Option GoErr :=
  l.foldl (fun a h => match h.deleteReply with | .error e => some (.backend e) | .ok _ => a) e0

/-- Number of backends the `Delete` walk contacts, starting from success
counter `suc`: the walk breaks right after the backend that lifts the
confirmed-deletion count to `N`. -/
def deleteStopLen (N : Nat) : Nat → List Host → Nat
  | _, [] => 0
  | suc, h :: rest =>
    let suc := if ackOk h.deleteReply then suc + 1 else suc
    if suc ≥ N then 1 else 1 + deleteStopLen N suc rest

/-- Full characterization of the `Delete` loop in terms of the contacted
`deleteStopLen`-long candidate segment. -/
theorem deleteLoop_eq (N : Nat) :
    ∀ (rest : List Host) (suc ec : Nat) (tg : List String) (err : Option GoErr)
      (con : List String),
      deleteLoop N rest suc ec tg err con =
        (suc + delConfirms (rest.take (deleteStopLen N suc rest)),
         ec + delErrs (rest.take (deleteStopLen N suc rest)),
         tg ++ ((rest.take (deleteStopLen N suc rest)).filter
                  (fun h => ackOk h.deleteReply)).map (·.Addr),
         lastDelErrFrom err (rest.take (deleteStopLen N suc rest)),
         con ++ (rest.take (deleteStopLen N suc rest)).map (·.Addr)) := by
  intro rest
  induction rest with
  | nil =>
    intro suc ec tg err con
    simp [deleteLoop, deleteStopLen, delConfirms, delErrs, lastDelErrFrom]
  | cons h rest ih =>
    intro suc ec tg err con
    cases hr : h.deleteReply with
    | error e =>
      have hack : ackOk h.deleteReply = false := by rw [hr]; rfl
      by_cases hs : suc ≥ N
      · have hstop : deleteStopLen N suc (h :: rest) = 1 := by
          simp [deleteStopLen, hack, hs]
        have hloop : deleteLoop N (h :: rest) suc ec tg err con
            = (suc, ec + 1, tg, some (.backend e), con ++ [h.Addr]) := by
          simp [deleteLoop, hr, hs]
        rw [hloop, hstop]
        simp [delConfirms, delErrs, delErrH, lastDelErrFrom, hack, hr]
      · have hstop : deleteStopLen N suc (h :: rest) = deleteStopLen N suc rest + 1 := by
          simp [deleteStopLen, hack, hs, Nat.add_comm]
        have hloop : deleteLoop N (h :: rest) suc ec tg err con
            = deleteLoop N rest suc (ec + 1) tg (some (.backend e)) (con ++ [h.Addr]) := by
          simp [deleteLoop, hr, hs]
        rw [hloop, ih, hstop]
        simp [List.take_succ_cons, delConfirms, delErrs, delErrH, lastDelErrFrom, hack, hr,
          List.append_assoc] <;> omega
    | ok b =>
      cases b with
      | true =>
        have hack : ackOk h.deleteReply = true := by rw [hr]; rfl
        by_cases hs : suc + 1 ≥ N
        · have hstop : deleteStopLen N suc (h :: rest) = 1 := by
            simp [deleteStopLen, hack, hs]
          have hloop : deleteLoop N (h :: rest) suc ec tg err con
              = (suc + 1, ec, tg ++ [h.Addr], err, con ++ [h.Addr]) := by
            simp [deleteLoop, hr, hs]
          rw [hloop, hstop]
          simp [delConfirms, delErrs, delErrH, lastDelErrFrom, hack, hr]
        · have hstop : deleteStopLen N suc (h :: rest) = deleteStopLen N (suc + 1) rest + 1 := by
            simp [deleteStopLen, hack, hs, Nat.add_comm]
          have hloop : deleteLoop N (h :: rest) suc ec tg err con
              = deleteLoop N rest (suc + 1) ec (tg ++ [h.Addr]) err (con ++ [h.Addr]) := by
            simp [deleteLoop, hr, hs]
          rw [hloop, ih, hstop]
          simp [List.take_succ_cons, delConfirms, delErrs, delErrH, lastDelErrFrom, hack, hr,
            List.append_assoc] <;> omega
      | false =>
        have hack : ackOk h.deleteReply = false := by rw [hr]; rfl
        by_cases hs : suc ≥ N
        · have hstop : deleteStopLen N suc (h :: rest) = 1 := by
            simp [deleteStopLen, hack, hs]
          have hloop : deleteLoop N (h :: rest) suc ec tg err con
              = (suc, ec, tg, err, con ++ [h.Addr]) := by
            simp [deleteLoop, hr, hs]
          rw [hloop, hstop]
          simp [delConfirms, delErrs, delErrH, lastDelErrFrom, hack, hr]
        · have hstop : deleteStopLen N suc (h :: rest) = deleteStopLen N suc rest + 1 := by
            simp [deleteStopLen, hack, hs, Nat.add_comm]
          have hloop : deleteLoop N (h :: rest) suc ec tg err con
              = deleteLoop N rest suc ec tg err (con ++ [h.Addr]) := by
            simp [deleteLoop, hr, hs]
          rw [hloop, ih, hstop]
          simp [List.take_succ_cons, delConfirms, delErrs, delErrH, lastDelErrFrom, hack, hr,
            List.append_assoc] <;> omega

/-- The `Delete` walk never contacts more backends than exist. -/
theorem deleteStopLen_le_length (N : Nat) :
    ∀ (l : List Host) (suc : Nat), deleteStopLen N suc l ≤ l.length := by
  intro l
  induction l with
  | nil => intro suc; simp [deleteStopLen]
  | cons h rest ih =>
    intro suc
    cases hack : ackOk h.deleteReply with
    | true =>
      by_cases hs : suc + 1 ≥ N
      · simp [deleteStopLen, hack, hs]
      · have := ih (suc + 1)
        simp only [deleteStopLen, hack, if_true, List.length_cons]
        rw [if_neg hs]
        omega
    | false =>
      by_cases hs : suc ≥ N
      · simp [deleteStopLen, hack, hs]
      · have := ih suc
        simp only [deleteStopLen, hack, Bool.false_eq_true, if_false, List.length_cons]
        rw [if_neg hs]
        omega

/-- If the `Delete` walk stops early, the confirmed-deletion count over the
contacted segment has reached `N`. -/
theorem deleteStopLen_stop (N : Nat) :
    ∀ (l : List Host) (suc : Nat), deleteStopLen N suc l < l.length →
      N ≤ suc + delConfirms (l.take (deleteStopLen N suc l)) := by
  intro l
  induction l with
  | nil => intro suc h; simp [deleteStopLen] at h
  | cons h rest ih =>
    intro suc hlt
    cases hack : ackOk h.deleteReply with
    | true =>
      by_cases hs : suc + 1 ≥ N
      · have hk : deleteStopLen N suc (h :: rest) = 1 := by
          simp [deleteStopLen, hack, hs]
        rw [hk]
        simp [delConfirms, hack]
        omega
      · have hk : deleteStopLen N suc (h :: rest) = deleteStopLen N (suc + 1) rest + 1 := by
          simp only [deleteStopLen, hack, if_true]
          rw [if_neg hs]
          omega
        rw [hk] at hlt ⊢
        simp only [List.length_cons] at hlt
        have := ih (suc + 1) (by omega)
        simp [List.take_succ_cons, delConfirms, hack] at this ⊢
        omega
    | false =>
      by_cases hs : suc ≥ N
      · have hk : deleteStopLen N suc (h :: rest) = 1 := by
          simp [deleteStopLen, hack, hs]
        rw [hk]
        simp [delConfirms, hack]
        omega
      · have hk : deleteStopLen N suc (h :: rest) = deleteStopLen N suc rest + 1 := by
          simp only [deleteStopLen, hack, Bool.false_eq_true, if_false]
          rw [if_neg hs]
          omega
        rw [hk] at hlt ⊢
        simp only [List.length_cons] at hlt
        have := ih suc (by omega)
        simp [List.take_succ_cons, delConfirms, hack] at this ⊢
        omega

/-- Before the stop point, the confirmed-deletion count is still below
`N`: the walk keeps contacting further candidates. -/
theorem deleteStopLen_min (N : Nat) :
    ∀ (l : List Host) (suc j : Nat), j + 1 < deleteStopLen N suc l →
      suc + delConfirms (l.take (j + 1)) < N := by
  intro l
  induction l with
  | nil => intro suc j h; simp [deleteStopLen] at h
  | cons h rest ih =>
    intro suc j hj
    cases hack : ackOk h.deleteReply with
    | true =>
      by_cases hs : suc + 1 ≥ N
      · have hk : deleteStopLen N suc (h :: rest) = 1 := by
          simp [deleteStopLen, hack, hs]
        rw [hk] at hj
        omega
      · have hk : deleteStopLen N suc (h :: rest) = deleteStopLen N (suc + 1) rest + 1 := by
          simp only [deleteStopLen, hack, if_true]
          rw [if_neg hs]
          omega
        rw [hk] at hj
        cases j with
        | zero =>
          simp [delConfirms, hack]
          omega
        | succ j =>
          have := ih (suc + 1) j (by omega)
          simp [List.take_succ_cons, delConfirms, hack] at this ⊢
          omega
    | false =>
      by_cases hs : suc ≥ N
      · have hk : deleteStopLen N suc (h :: rest) = 1 := by
          simp [deleteStopLen, hack, hs]
        rw [hk] at hj
        omega
      · have hk : deleteStopLen N suc (h :: rest) = deleteStopLen N suc rest + 1 := by
          simp only [deleteStopLen, hack, Bool.false_eq_true, if_false]
          rw [if_neg hs]
          omega
        rw [hk] at hj
        cases j with
        | zero =>
          simp [delConfirms, hack]
          omega
        | succ j =>
          have := ih suc j (by omega)
          simp [List.take_succ_cons, delConfirms, hack] at this ⊢
          omega

/-- Counterexample for C4 as stated: with `N = 1`, after the first backend
the attempt count has reached `N`, yet `Delete` (whose break condition is
`suc >= N` on the confirmed-deletion counter, not the attempt counter)
contacts the second backend as well. -/
theorem delete_keeps_walking_after_n_attempts_cex :
    (clientDelete (mkClient [{mkHost "a" .miss with deleteReply := .ok false},
        mkHost "b" .miss] 1 1 1) "k").contacted = ["a", "b"] ∧
    (mkClient [{mkHost "a" .miss with deleteReply := .ok false},
        mkHost "b" .miss] 1 1 1).N = 1 := by
  constructor <;> rfl

/-- Claim C4, amended: `Delete` walks the ranked list and stops early
exactly when the number of confirmed deletions (not attempts) reaches `N`;
until that happens it keeps contacting further candidates. -/
theorem delete_stops_on_n_confirmations :
    ∀ (c : Client) (key : String),
      (clientDelete c key).contacted
          = ((c.scheduler.getHostsByKey key).take
              (deleteStopLen c.N 0 (c.scheduler.getHostsByKey key))).map (·.Addr) ∧
      deleteStopLen c.N 0 (c.scheduler.getHostsByKey key)
          ≤ (c.scheduler.getHostsByKey key).length ∧
      (deleteStopLen c.N 0 (c.scheduler.getHostsByKey key)
            < (c.scheduler.getHostsByKey key).length →
        c.N ≤ delConfirms ((c.scheduler.getHostsByKey key).take
              (deleteStopLen c.N 0 (c.scheduler.getHostsByKey key)))) ∧
      (∀ j, j + 1 < deleteStopLen c.N 0 (c.scheduler.getHostsByKey key) →
        delConfirms ((c.scheduler.getHostsByKey key).take (j + 1)) < c.N) := by
  intro c key
  refine ⟨?_, deleteStopLen_le_length c.N _ 0, ?_, ?_⟩
  · simp only [clientDelete, deleteLoop_eq]
    split <;> rfl
  · intro hlt
    have := deleteStopLen_stop c.N (c.scheduler.getHostsByKey key) 0 hlt
    omega
  · intro j hj
    have := deleteStopLen_min c.N (c.scheduler.getHostsByKey key) 0 j hj
    omega

/-- Witness for C4's amended theorem at the counterexample configuration:
one unconfirmed backend followed by one confirming backend, `N = 1`. -/
theorem delete_stops_on_n_confirmations_witness :
    (clientDelete (mkClient [{mkHost "a" .miss with deleteReply := .ok false},
          mkHost "b" .miss] 1 1 1) "k").contacted
        = (((mkClient [{mkHost "a" .miss with deleteReply := .ok false},
              mkHost "b" .miss] 1 1 1).scheduler.getHostsByKey "k").take
            (deleteStopLen 1 0 ((mkClient [{mkHost "a" .miss with deleteReply := .ok false},
              mkHost "b" .miss] 1 1 1).scheduler.getHostsByKey "k"))).map (·.Addr) ∧
      (1 < deleteStopLen 1 0 ((mkClient [{mkHost "a" .miss with deleteReply := .ok false},
              mkHost "b" .miss] 1 1 1).scheduler.getHostsByKey "k") →
        delConfirms (((mkClient [{mkHost "a" .miss with deleteReply := .ok false},
              mkHost "b" .miss] 1 1 1).scheduler.getHostsByKey "k").take 1) < 1) := by
  have h := delete_stops_on_n_confirmations
    (mkClient [{mkHost "a" .miss with deleteReply := .ok false}, mkHost "b" .miss] 1 1 1) "k"
  exact ⟨h.1, fun hlt => h.2.2.2 0 hlt⟩

/-- Claim C5: `Delete` returns `r = true` with a cleared error iff at
least one backend confirmed the deletion or fewer than two backend errors
were observed over the contacted segment; otherwise `r = false` with the
last backend error.  The outcome does not depend on `W` or `R`. -/
theorem delete_success_rule :
    ∀ (c : Client) (key : String) (W' R' : Nat),
      ((clientDelete c key).r = true ↔
        0 < delConfirms ((c.scheduler.getHostsByKey key).take
              (deleteStopLen c.N 0 (c.scheduler.getHostsByKey key))) ∨
        delErrs ((c.scheduler.getHostsByKey key).take
              (deleteStopLen c.N 0 (c.scheduler.getHostsByKey key))) < 2) ∧
      ((clientDelete c key).err =
        if 0 < delConfirms ((c.scheduler.getHostsByKey key).take
              (deleteStopLen c.N 0 (c.scheduler.getHostsByKey key))) ∨
           delErrs ((c.scheduler.getHostsByKey key).take
              (deleteStopLen c.N 0 (c.scheduler.getHostsByKey key))) < 2
         then none
         else lastDelErrFrom none ((c.scheduler.getHostsByKey key).take
              (deleteStopLen c.N 0 (c.scheduler.getHostsByKey key)))) ∧
      ((clientDelete c key).r = false →
        (clientDelete c key).err = lastDelErrFrom none ((c.scheduler.getHostsByKey key).take
              (deleteStopLen c.N 0 (c.scheduler.getHostsByKey key)))) ∧
      clientDelete { c with W := W', R := R' } key = clientDelete c key := by
  intro c key W' R'
  by_cases hc :
      0 < delConfirms ((c.scheduler.getHostsByKey key).take
            (deleteStopLen c.N 0 (c.scheduler.getHostsByKey key))) ∨
      delErrs ((c.scheduler.getHostsByKey key).take
            (deleteStopLen c.N 0 (c.scheduler.getHostsByKey key))) < 2
  · refine ⟨?_, ?_, ?_, rfl⟩ <;>
      simp only [clientDelete, deleteLoop_eq] <;>
      rw [if_pos (by simpa using hc)] <;>
      simp [hc]
  · refine ⟨?_, ?_, ?_, rfl⟩ <;>
      simp only [clientDelete, deleteLoop_eq] <;>
      rw [if_neg (by simpa using hc)] <;>
      simp [hc]

/-- Witness for C5 at the spec's section-8 scenario: two erroring backends
then one confirming backend, `N = 3`. -/
theorem delete_success_rule_witness :
    ((clientDelete (mkClient [{mkHost "a" .miss with deleteReply := .error 4},
          {mkHost "b" .miss with deleteReply := .error 5},
          mkHost "c" .miss] 3 2 2) "k").r = true ↔
      0 < delConfirms (((mkClient [{mkHost "a" .miss with deleteReply := .error 4},
            {mkHost "b" .miss with deleteReply := .error 5},
            mkHost "c" .miss] 3 2 2).scheduler.getHostsByKey "k").take
          (deleteStopLen 3 0 ((mkClient [{mkHost "a" .miss with deleteReply := .error 4},
            {mkHost "b" .miss with deleteReply := .error 5},
            mkHost "c" .miss] 3 2 2).scheduler.getHostsByKey "k"))) ∨
      delErrs (((mkClient [{mkHost "a" .miss with deleteReply := .error 4},
            {mkHost "b" .miss with deleteReply := .error 5},
            mkHost "c" .miss] 3 2 2).scheduler.getHostsByKey "k").take
          (deleteStopLen 3 0 ((mkClient [{mkHost "a" .miss with deleteReply := .error 4},
            {mkHost "b" .miss with deleteReply := .error 5},
            mkHost "c" .miss] 3 2 2).scheduler.getHostsByKey "k"))) < 2) :=
  (delete_success_rule (mkClient [{mkHost "a" .miss with deleteReply := .error 4},
    {mkHost "b" .miss with deleteReply := .error 5}, mkHost "c" .miss] 3 2 2) "k" 7 9).1

/-! ### Write-walk characterization (claims C6, C9) -/

/-- Number of backends in a list satisfying the per-operation success
predicate `p` (acknowledged writes). -/
def wAcks (p : Host → Bool) (l : List Host) : Nat :=
  (l.filter p).length

/-- Number of backends a `Set`/`Append`-shaped walk contacts, starting at
attempt index `i` and success count `suc`: the walk breaks right after the
first backend at which `suc >= W && i+1 >= N` holds. -/
def wStopLen (p : Host → Bool) (W N : Nat) : Nat → Nat → List Host → Nat
  | _, _, [] => 0
  | i, suc, h :: rest =>
    let suc := if p h then suc + 1 else suc
    if suc ≥ W ∧ i + 1 ≥ N then 1 else 1 + wStopLen p W N (i + 1) suc rest

/-- A write walk never contacts more backends than exist. -/
theorem wStopLen_le_length (p : Host → Bool) (W N : Nat) :
    ∀ (l : List Host) (i suc : Nat), wStopLen p W N i suc l ≤ l.length := by
  intro l
  induction l with
  | nil => intro i suc; simp [wStopLen]
  | cons h rest ih =>
    intro i suc
    by_cases hc : (if p h then suc + 1 else suc) ≥ W ∧ i + 1 ≥ N
    · simp only [wStopLen, List.length_cons]
      rw [if_pos hc]
      omega
    · have := ih (i + 1) (if p h then suc + 1 else suc)
      simp only [wStopLen, List.length_cons]
      rw [if_neg hc]
      omega

/-- If a write walk stops early, both the success floor `W` and the
attempt floor `N` hold over the contacted segment. -/
theorem wStopLen_stop (p : Host → Bool) (W N : Nat) :
    ∀ (l : List Host) (i suc : Nat), wStopLen p W N i suc l < l.length →
      W ≤ suc + wAcks p (l.take (wStopLen p W N i suc l)) ∧
      N ≤ i + wStopLen p W N i suc l := by
  intro l
  induction l with
  | nil => intro i suc h; simp [wStopLen] at h
  | cons h rest ih =>
    intro i suc hlt
    by_cases hc : (if p h then suc + 1 else suc) ≥ W ∧ i + 1 ≥ N
    · have hk : wStopLen p W N i suc (h :: rest) = 1 := by
        simp only [wStopLen]; rw [if_pos hc]
      rw [hk]
      cases hp : p h <;> simp [hp] at hc <;> simp [wAcks, hp] <;> omega
    · have hk : wStopLen p W N i suc (h :: rest)
          = wStopLen p W N (i + 1) (if p h then suc + 1 else suc) rest + 1 := by
        simp only [wStopLen]; rw [if_neg hc]; omega
      rw [hk] at hlt ⊢
      simp only [List.length_cons] at hlt
      have := ih (i + 1) (if p h then suc + 1 else suc) (by omega)
      cases hp : p h <;> rw [hp] at this <;>
        simp [List.take_succ_cons, wAcks, hp] at this ⊢ <;> omega

/-- Before the stop point of a write walk, the stop condition fails: the
walk keeps contacting further candidates. -/
theorem wStopLen_min (p : Host → Bool) (W N : Nat) :
    ∀ (l : List Host) (i suc j : Nat), j + 1 < wStopLen p W N i suc l →
      ¬(W ≤ suc + wAcks p (l.take (j + 1)) ∧ N ≤ i + j + 1) := by
  intro l
  induction l with
  | nil => intro i suc j h; simp [wStopLen] at h
  | cons h rest ih =>
    intro i suc j hj
    by_cases hc : (if p h then suc + 1 else suc) ≥ W ∧ i + 1 ≥ N
    · have hk : wStopLen p W N i suc (h :: rest) = 1 := by
        simp only [wStopLen]; rw [if_pos hc]
      rw [hk] at hj
      omega
    · have hk : wStopLen p W N i suc (h :: rest)
          = wStopLen p W N (i + 1) (if p h then suc + 1 else suc) rest + 1 := by
        simp only [wStopLen]; rw [if_neg hc]; omega
      rw [hk] at hj
      cases j with
      | zero =>
        intro habs
        apply hc
        cases hp : p h <;>
          simp [wAcks, hp] at habs ⊢ <;> omega
      | succ j =>
        have := ih (i + 1) (if p h then suc + 1 else suc) j (by omega)
        intro habs
        apply this
        cases hp : p h <;>
          simp [List.take_succ_cons, wAcks, hp] at habs this ⊢ <;> omega

/-- Full characterization of the `Set` loop over the contacted segment. -/
theorem setLoop_eq (W N : Nat) (key : String) :
    ∀ (rest : List Host) (i suc : Nat) (tg con : List String) (fb : List Feedback),
      setLoop W N key rest i suc tg con fb =
        (suc + wAcks (fun h => ackOk h.setReply)
            (rest.take (wStopLen (fun h => ackOk h.setReply) W N i suc rest)),
         tg ++ ((rest.take (wStopLen (fun h => ackOk h.setReply) W N i suc rest)).filter
                  (fun h => ackOk h.setReply)).map (·.Addr),
         con ++ (rest.take (wStopLen (fun h => ackOk h.setReply) W N i suc rest)).map (·.Addr),
         fb ++ ((rest.take (wStopLen (fun h => ackOk h.setReply) W N i suc rest)).filter
                  (fun h => !(ackOk h.setReply))).map
                (fun h => ⟨h.Addr, key, .flat2, false⟩)) := by
  intro rest
  induction rest with
  | nil =>
    intro i suc tg con fb
    simp [setLoop, wStopLen, wAcks]
  | cons h rest ih =>
    intro i suc tg con fb
    cases hg : ackOk h.setReply with
    | true =>
      by_cases hc : suc + 1 ≥ W ∧ i + 1 ≥ N
      · have hstop : wStopLen (fun h => ackOk h.setReply) W N i suc (h :: rest) = 1 := by
          simp only [wStopLen, hg, if_true]
          rw [if_pos hc]
        have hloop : setLoop W N key (h :: rest) i suc tg con fb
            = (suc + 1, tg ++ [h.Addr], con ++ [h.Addr], fb) := by
          simp [setLoop, hg, hc]
        rw [hloop, hstop]
        simp [wAcks, hg]
      · have hstop : wStopLen (fun h => ackOk h.setReply) W N i suc (h :: rest)
            = wStopLen (fun h => ackOk h.setReply) W N (i + 1) (suc + 1) rest + 1 := by
          simp only [wStopLen, hg, if_true]
          rw [if_neg hc]
          omega
        have hloop : setLoop W N key (h :: rest) i suc tg con fb
            = setLoop W N key rest (i + 1) (suc + 1) (tg ++ [h.Addr]) (con ++ [h.Addr]) fb := by
          simp [setLoop, hg, hc]
        rw [hloop, ih, hstop]
        simp [List.take_succ_cons, wAcks, hg, List.append_assoc] <;> omega
    | false =>
      by_cases hc : suc ≥ W ∧ i + 1 ≥ N
      · have hstop : wStopLen (fun h => ackOk h.setReply) W N i suc (h :: rest) = 1 := by
          simp only [wStopLen, hg, Bool.false_eq_true, if_false]
          rw [if_pos hc]
        have hloop : setLoop W N key (h :: rest) i suc tg con fb
            = (suc, tg, con ++ [h.Addr], fb ++ [⟨h.Addr, key, .flat2, false⟩]) := by
          simp [setLoop, hg, hc]
        rw [hloop, hstop]
        simp [wAcks, hg]
      · have hstop : wStopLen (fun h => ackOk h.setReply) W N i suc (h :: rest)
            = wStopLen (fun h => ackOk h.setReply) W N (i + 1) suc rest + 1 := by
          simp only [wStopLen, hg, Bool.false_eq_true, if_false]
          rw [if_neg hc]
          omega
        have hloop : setLoop W N key (h :: rest) i suc tg con fb
            = setLoop W N key rest (i + 1) suc tg (con ++ [h.Addr])
                (fb ++ [⟨h.Addr, key, .flat2, false⟩]) := by
          simp [setLoop, hg, hc]
        rw [hloop, ih, hstop]
        simp [List.take_succ_cons, wAcks, hg, List.append_assoc] <;> omega

/-- Full characterization of the `Append` loop: identical to `Set` except
that the feedback log is left untouched. -/
theorem appendLoop_eq (W N : Nat) :
    ∀ (rest : List Host) (i suc : Nat) (tg con : List String) (fb : List Feedback),
      appendLoop W N rest i suc tg con fb =
        (suc + wAcks (fun h => ackOk h.appendReply)
            (rest.take (wStopLen (fun h => ackOk h.appendReply) W N i suc rest)),
         tg ++ ((rest.take (wStopLen (fun h => ackOk h.appendReply) W N i suc rest)).filter
                  (fun h => ackOk h.appendReply)).map (·.Addr),
         con ++ (rest.take (wStopLen (fun h => ackOk h.appendReply) W N i suc rest)).map (·.Addr),
         fb) := by
  intro rest
  induction rest with
  | nil =>
    intro i suc tg con fb
    simp [appendLoop, wStopLen, wAcks]
  | cons h rest ih =>
    intro i suc tg con fb
    cases hg : ackOk h.appendReply with
    | true =>
      by_cases hc : suc + 1 ≥ W ∧ i + 1 ≥ N
      · have hstop : wStopLen (fun h => ackOk h.appendReply) W N i suc (h :: rest) = 1 := by
          simp only [wStopLen, hg, if_true]
          rw [if_pos hc]
        have hloop : appendLoop W N (h :: rest) i suc tg con fb
            = (suc + 1, tg ++ [h.Addr], con ++ [h.Addr], fb) := by
          simp [appendLoop, hg, hc]
        rw [hloop, hstop]
        simp [wAcks, hg]
      · have hstop : wStopLen (fun h => ackOk h.appendReply) W N i suc (h :: rest)
            = wStopLen (fun h => ackOk h.appendReply) W N (i + 1) (suc + 1) rest + 1 := by
          simp only [wStopLen, hg, if_true]
          rw [if_neg hc]
          omega
        have hloop : appendLoop W N (h :: rest) i suc tg con fb
            = appendLoop W N rest (i + 1) (suc + 1) (tg ++ [h.Addr]) (con ++ [h.Addr]) fb := by
          simp [appendLoop, hg, hc]
        rw [hloop, ih, hstop]
        simp [List.take_succ_cons, wAcks, hg, List.append_assoc] <;> omega
    | false =>
      by_cases hc : suc ≥ W ∧ i + 1 ≥ N
      · have hstop : wStopLen (fun h => ackOk h.appendReply) W N i suc (h :: rest) = 1 := by
          simp only [wStopLen, hg, Bool.false_eq_true, if_false]
          rw [if_pos hc]
        have hloop : appendLoop W N (h :: rest) i suc tg con fb
            = (suc, tg, con ++ [h.Addr], fb) := by
          simp [appendLoop, hg, hc]
        rw [hloop, hstop]
        simp [wAcks, hg]
      · have hstop : wStopLen (fun h => ackOk h.appendReply) W N i suc (h :: rest)
            = wStopLen (fun h => ackOk h.appendReply) W N (i + 1) suc rest + 1 := by
          simp only [wStopLen, hg, Bool.false_eq_true, if_false]
          rw [if_neg hc]
          omega
        have hloop : appendLoop W N (h :: rest) i suc tg con fb
            = appendLoop W N rest (i + 1) suc tg (con ++ [h.Addr]) fb := by
          simp [appendLoop, hg, hc]
        rw [hloop, ih, hstop]
        simp [List.take_succ_cons, wAcks, hg, List.append_assoc] <;> omega

/-- The candidate segment `Set` contacts: the ranked list truncated at the
walk's stop point. -/
def setStopSeg (c : Client) (key : String) : List Host :=
  (c.scheduler.getHostsByKey key).take
    (wStopLen (fun h => ackOk h.setReply) c.W c.N 0 0 (c.scheduler.getHostsByKey key))

/-- The candidate segment `Append` contacts. -/
def appendStopSeg (c : Client) (key : String) : List Host :=
  (c.scheduler.getHostsByKey key).take
    (wStopLen (fun h => ackOk h.appendReply) c.W c.N 0 0 (c.scheduler.getHostsByKey key))

/-- Claim C6: `Set` walks the ranked list, stopping exactly once the
success count has reached `W` and at least `N` candidates were attempted;
each failed backend (error or not-ok) gets a fixed `-2` non-fault
feedback; the result is a write-failure error with `ok = false` iff fewer
than `W` backends acknowledged. -/
theorem set_w_gate_and_feedback :
    ∀ (c : Client) (key : String) (item : Item) (nr : Bool),
      (clientSet c key item nr).contacted = (setStopSeg c key).map (·.Addr) ∧
      (clientSet c key item nr).fb
          = ((setStopSeg c key).filter (fun h => !(ackOk h.setReply))).map
              (fun h => ⟨h.Addr, key, .flat2, false⟩) ∧
      (clientSet c key item nr).targets
          = ((setStopSeg c key).filter (fun h => ackOk h.setReply)).map (·.Addr) ∧
      ((clientSet c key item nr).ok = false ∧
          (clientSet c key item nr).final_err = some .writeFailed ↔
        wAcks (fun h => ackOk h.setReply) (setStopSeg c key) < c.W) ∧
      ((clientSet c key item nr).ok = true ∧ (clientSet c key item nr).final_err = none ↔
        c.W ≤ wAcks (fun h => ackOk h.setReply) (setStopSeg c key)) ∧
      (wStopLen (fun h => ackOk h.setReply) c.W c.N 0 0 (c.scheduler.getHostsByKey key)
            < (c.scheduler.getHostsByKey key).length →
        c.W ≤ wAcks (fun h => ackOk h.setReply) (setStopSeg c key) ∧
        c.N ≤ wStopLen (fun h => ackOk h.setReply) c.W c.N 0 0 (c.scheduler.getHostsByKey key)) ∧
      (∀ j, j + 1 < wStopLen (fun h => ackOk h.setReply) c.W c.N 0 0
              (c.scheduler.getHostsByKey key) →
        ¬(c.W ≤ wAcks (fun h => ackOk h.setReply)
              ((c.scheduler.getHostsByKey key).take (j + 1)) ∧ c.N ≤ j + 1)) := by
  intro c key item nr
  refine ⟨?_, ?_, ?_, ?_, ?_, ?_, ?_⟩
  · simp only [clientSet, setLoop_eq, setStopSeg]
    split <;> rfl
  · simp only [clientSet, setLoop_eq, setStopSeg]
    split <;> simp
  · simp only [clientSet, setLoop_eq, setStopSeg]
    split <;> simp
  · simp only [clientSet, setLoop_eq, setStopSeg]
    split <;> rename_i hlt <;> simp at hlt <;> simp [hlt] <;> omega
  · simp only [clientSet, setLoop_eq, setStopSeg]
    split <;> rename_i hlt <;> simp at hlt <;> simp [hlt] <;> omega
  · intro hlt
    have := wStopLen_stop (fun h => ackOk h.setReply) c.W c.N
      (c.scheduler.getHostsByKey key) 0 0 hlt
    simpa [setStopSeg] using this
  · intro j hj
    have := wStopLen_min (fun h => ackOk h.setReply) c.W c.N
      (c.scheduler.getHostsByKey key) 0 0 j hj
    simpa using this

/-- A demonstration `Set` scenario (spec section 8): `N = W = 2`,
candidates acknowledge, fail, acknowledge, acknowledge; the walk stops
early after the third. -/
def setDemoClient : Client :=
  mkClient [mkHost "a" .miss, {mkHost "b" .miss with setReply := .ok false},
    mkHost "c" .miss, mkHost "d" .miss] 2 2 2

/-- Witness for C6 at the demonstration scenario: the walk stops after the
third backend with both floors met, and the per-backend `-2` feedback and
W-gate conclusions hold there. -/
theorem set_w_gate_and_feedback_witness :
    (clientSet setDemoClient "k" ⟨1⟩ false).contacted
        = (setStopSeg setDemoClient "k").map (·.Addr) ∧
      (clientSet setDemoClient "k" ⟨1⟩ false).fb
        = ((setStopSeg setDemoClient "k").filter (fun h => !(ackOk h.setReply))).map
            (fun h => ⟨h.Addr, "k", .flat2, false⟩) ∧
      (setDemoClient.W ≤ wAcks (fun h => ackOk h.setReply) (setStopSeg setDemoClient "k") ∧
        setDemoClient.N ≤ wStopLen (fun h => ackOk h.setReply) setDemoClient.W
          setDemoClient.N 0 0 (setDemoClient.scheduler.getHostsByKey "k")) ∧
      ¬(setDemoClient.W ≤ wAcks (fun h => ackOk h.setReply)
            ((setDemoClient.scheduler.getHostsByKey "k").take (0 + 1)) ∧
        setDemoClient.N ≤ 0 + 1) := by
  have h := set_w_gate_and_feedback setDemoClient "k" ⟨1⟩ false
  exact ⟨h.1, h.2.1, h.2.2.2.2.2.1 (by decide), h.2.2.2.2.2.2 0 (by decide)⟩

/-- Claim C9: `Append` never sends any feedback (empty feedback log), but
otherwise follows `Set`'s shape: stop once the success count reaches `W`
with at least `N` attempted, and a write-failure error with `ok = false`
iff fewer than `W` backends acknowledged. -/
theorem append_no_feedback_w_gate :
    ∀ (c : Client) (key : String) (value : List Nat),
      (clientAppend c key value).fb = [] ∧
      (clientAppend c key value).contacted = (appendStopSeg c key).map (·.Addr) ∧
      (clientAppend c key value).targets
          = ((appendStopSeg c key).filter (fun h => ackOk h.appendReply)).map (·.Addr) ∧
      ((clientAppend c key value).ok = false ∧
          (clientAppend c key value).final_err = some .writeFailed ↔
        wAcks (fun h => ackOk h.appendReply) (appendStopSeg c key) < c.W) ∧
      ((clientAppend c key value).ok = true ∧ (clientAppend c key value).final_err = none ↔
        c.W ≤ wAcks (fun h => ackOk h.appendReply) (appendStopSeg c key)) ∧
      (wStopLen (fun h => ackOk h.appendReply) c.W c.N 0 0 (c.scheduler.getHostsByKey key)
            < (c.scheduler.getHostsByKey key).length →
        c.W ≤ wAcks (fun h => ackOk h.appendReply) (appendStopSeg c key) ∧
        c.N ≤ wStopLen (fun h => ackOk h.appendReply) c.W c.N 0 0
            (c.scheduler.getHostsByKey key)) ∧
      (∀ j, j + 1 < wStopLen (fun h => ackOk h.appendReply) c.W c.N 0 0
              (c.scheduler.getHostsByKey key) →
        ¬(c.W ≤ wAcks (fun h => ackOk h.appendReply)
              ((c.scheduler.getHostsByKey key).take (j + 1)) ∧ c.N ≤ j + 1)) := by
  intro c key value
  refine ⟨?_, ?_, ?_, ?_, ?_, ?_, ?_⟩
  · simp only [clientAppend, appendLoop_eq]
    split <;> rfl
  · simp only [clientAppend, appendLoop_eq, appendStopSeg]
    split <;> rfl
  · simp only [clientAppend, appendLoop_eq, appendStopSeg]
    split <;> simp
  · simp only [clientAppend, appendLoop_eq, appendStopSeg]
    split <;> rename_i hlt <;> simp at hlt <;> simp [hlt] <;> omega
  · simp only [clientAppend, appendLoop_eq, appendStopSeg]
    split <;> rename_i hlt <;> simp at hlt <;> simp [hlt] <;> omega
  · intro hlt
    have := wStopLen_stop (fun h => ackOk h.appendReply) c.W c.N
      (c.scheduler.getHostsByKey key) 0 0 hlt
    simpa [appendStopSeg] using this
  · intro j hj
    have := wStopLen_min (fun h => ackOk h.appendReply) c.W c.N
      (c.scheduler.getHostsByKey key) 0 0 j hj
    simpa using this

/-- An `Append` scenario with one failing backend: `N = W = 2`, candidate
b replies not-ok. -/
def appendDemoClient : Client :=
  mkClient [mkHost "a" .miss, {mkHost "b" .miss with appendReply := .ok false},
    mkHost "c" .miss, mkHost "d" .miss] 2 2 2

/-- Witness for C9 at the append scenario: empty feedback log even though
backend b failed, and both stop floors hold at the early stop. -/
theorem append_no_feedback_w_gate_witness :
    (clientAppend appendDemoClient "k" [1]).fb = [] ∧
      (clientAppend appendDemoClient "k" [1]).contacted
        = (appendStopSeg appendDemoClient "k").map (·.Addr) ∧
      (appendDemoClient.W ≤ wAcks (fun h => ackOk h.appendReply)
            (appendStopSeg appendDemoClient "k") ∧
        appendDemoClient.N ≤ wStopLen (fun h => ackOk h.appendReply) appendDemoClient.W
          appendDemoClient.N 0 0 (appendDemoClient.scheduler.getHostsByKey "k")) := by
  have h := append_no_feedback_w_gate appendDemoClient "k" [1]
  exact ⟨h.1, h.2.1, h.2.2.2.2.2.1 (by decide)⟩

/-! ### Incr characterization (claim C8) -/

/-- Whether a backend's `Incr` reply counts as a success: error-free and
strictly positive. -/
def incrPos (h : Host) : Bool :=
  match h.incrReply with
  | .ok r => decide (r > 0)
  | .error _ => false

/-- The counter value a backend's `Incr` reply makes observable (none on a
transport error). -/
def incrVal (h : Host) : Option Int :=
  match h.incrReply with
  | .ok r => some r
  | .error _ => none

/-- Running-maximum accumulator of the `Incr` walk (`if r > result`),
started at `m`; errored backends contribute nothing. -/
def incrMaxFrom (m : Int) (l : List Host) : Int :=
  l.foldl (fun m h => match h.incrReply with | .ok r => if r > m then r else m | .error _ => m) m

/-- The value of `Incr`'s `err` variable after walking a list. -/
def lastIncrErrFrom (e0 : Option GoErr) (l : List Host) : Option GoErr :=
  l.foldl (fun a h => match h.incrReply with | .error e => some (.backend e) | .ok _ => a) e0

/-- Number of backends the `Incr` walk contacts: errored backends
`continue` past the break check; the walk breaks right after the first
backend at which `suc >= W && i+1 >= N` holds. -/
def incrStopLen (W N : Nat) : Nat → Nat → List Host → Nat
  | _, _, [] => 0
  | i, suc, h :: rest =>
    match h.incrReply with
    | .error _ => 1 + incrStopLen W N (i + 1) suc rest
    | .ok r =>
      let suc := if r > 0 then suc + 1 else suc
      if suc ≥ W ∧ i + 1 ≥ N then 1 else 1 + incrStopLen W N (i + 1) suc rest

/-- The candidate segment `Incr` contacts. -/
def incrStopSeg (c : Client) (key : String) : List Host :=
  (c.scheduler.getHostsByKey key).take
    (incrStopLen c.W c.N 0 0 (c.scheduler.getHostsByKey key))

/-- Full characterization of the `Incr` loop over the contacted segment. -/
theorem incrLoop_eq (W N : Nat) :
    ∀ (rest : List Host) (i suc : Nat) (result : Int) (tg : List String)
      (err : Option GoErr) (con : List String),
      incrLoop W N rest i suc result tg err con =
        (incrMaxFrom result (rest.take (incrStopLen W N i suc rest)),
         tg ++ ((rest.take (incrStopLen W N i suc rest)).filter incrPos).map (·.Addr),
         lastIncrErrFrom err (rest.take (incrStopLen W N i suc rest)),
         con ++ (rest.take (incrStopLen W N i suc rest)).map (·.Addr)) := by
  intro rest
  induction rest with
  | nil =>
    intro i suc result tg err con
    simp [incrLoop, incrStopLen, incrMaxFrom, lastIncrErrFrom]
  | cons h rest ih =>
    intro i suc result tg err con
    cases hr : h.incrReply with
    | error e =>
      have hstop : incrStopLen W N i suc (h :: rest) = incrStopLen W N (i + 1) suc rest + 1 := by
        simp [incrStopLen, hr, Nat.add_comm]
      have hloop : incrLoop W N (h :: rest) i suc result tg err con
          = incrLoop W N rest (i + 1) suc result tg (some (.backend e)) (con ++ [h.Addr]) := by
        simp [incrLoop, hr]
      rw [hloop, ih, hstop]
      simp [List.take_succ_cons, incrMaxFrom, lastIncrErrFrom, incrPos, hr,
        List.append_assoc]
    | ok r =>
      by_cases hc : (if r > 0 then suc + 1 else suc) ≥ W ∧ i + 1 ≥ N
      · have hstop : incrStopLen W N i suc (h :: rest) = 1 := by
          simp only [incrStopLen, hr]
          rw [if_pos hc]
        have hloop : incrLoop W N (h :: rest) i suc result tg err con
            = (if r > result then r else result,
               if r > 0 then tg ++ [h.Addr] else tg, err, con ++ [h.Addr]) := by
          simp only [incrLoop, hr]
          rw [if_pos hc]
        rw [hloop, hstop]
        by_cases hp : r > 0 <;>
          simp [incrMaxFrom, lastIncrErrFrom, incrPos, hr, hp]
      · have hstop : incrStopLen W N i suc (h :: rest)
            = incrStopLen W N (i + 1) (if r > 0 then suc + 1 else suc) rest + 1 := by
          simp only [incrStopLen, hr]
          rw [if_neg hc]
          omega
        have hloop : incrLoop W N (h :: rest) i suc result tg err con
            = incrLoop W N rest (i + 1) (if r > 0 then suc + 1 else suc)
                (if r > result then r else result)
                (if r > 0 then tg ++ [h.Addr] else tg) err (con ++ [h.Addr]) := by
          simp only [incrLoop, hr]
          rw [if_neg hc]
        rw [hloop, ih, hstop]
        by_cases hp : r > 0 <;>
          simp [List.take_succ_cons, incrMaxFrom, lastIncrErrFrom, incrPos, hr, hp,
            List.append_assoc]

/-- The running maximum of the `Incr` walk equals a fold of `max` over the
observed counter values. -/
theorem incrMaxFrom_eq_foldl_max :
    ∀ (l : List Host) (m : Int), incrMaxFrom m l = (l.filterMap incrVal).foldl max m := by
  intro l
  induction l with
  | nil => intro m; simp [incrMaxFrom]
  | cons h rest ih =>
    intro m
    cases hr : h.incrReply with
    | error e =>
      have h1 : incrMaxFrom m (h :: rest) = incrMaxFrom m rest := by
        simp [incrMaxFrom, hr]
      rw [h1, ih]
      simp [incrVal, hr]
    | ok r =>
      have h1 : incrMaxFrom m (h :: rest) = incrMaxFrom (if r > m then r else m) rest := by
        simp [incrMaxFrom, hr]
      have h2 : (if r > m then r else m) = max m r := by
        by_cases hgt : r > m
        · simp [hgt, max_eq_right (le_of_lt hgt)]
        · simp [hgt, max_eq_left (by omega : r ≤ m)]
      rw [h1, ih, h2]
      simp [incrVal, hr]

/-- A backend observing only the value `-5`. -/
def incrNegClient : Client :=
  mkClient [{mkHost "a" .miss with incrReply := .ok (-5)}] 1 1 1

/-- Counterexample for C8 as stated: when the only observed counter value
is `-5`, `Incr` returns `0` (the accumulator's initial value), not the
maximum observed value. -/
theorem incr_negative_max_cex :
    (clientIncr incrNegClient "k" 1).result = 0 ∧
    ((incrNegClient.scheduler.getHostsByKey "k").filterMap incrVal) = [-5] ∧
    ¬((0 : Int) = -5) := by
  refine ⟨rfl, rfl, by decide⟩

/-- Claim C8, amended: `Incr` returns the maximum of `0` and the counter
values observed across the contacted backends (so an all-negative
observation set yields `0`); a backend counts as a success (and a target)
only when its value is strictly positive; and the error is cleared
whenever the returned result is positive, regardless of `W`. -/
theorem incr_best_effort_maximal :
    ∀ (c : Client) (key : String) (v : Int),
      (clientIncr c key v).contacted = (incrStopSeg c key).map (·.Addr) ∧
      (clientIncr c key v).result = incrMaxFrom 0 (incrStopSeg c key) ∧
      (clientIncr c key v).result = ((incrStopSeg c key).filterMap incrVal).foldl max 0 ∧
      (clientIncr c key v).targets = ((incrStopSeg c key).filter incrPos).map (·.Addr) ∧
      (0 < (clientIncr c key v).result → (clientIncr c key v).err = none) := by
  intro c key v
  refine ⟨?_, ?_, ?_, ?_, ?_⟩
  · simp only [clientIncr, incrLoop_eq, incrStopSeg]
    split <;> rfl
  · simp only [clientIncr, incrLoop_eq, incrStopSeg]
    split <;> rfl
  · simp only [clientIncr, incrLoop_eq, incrStopSeg]
    split <;> rw [incrMaxFrom_eq_foldl_max]
  · simp only [clientIncr, incrLoop_eq, incrStopSeg]
    split <;> rfl
  · simp only [clientIncr, incrLoop_eq, incrStopSeg]
    split <;> rename_i hpos
    · intro _; rfl
    · intro habs
      simp only at habs
      omega

/-- An `Incr` scenario: an erroring backend then one returning `7`, with
`W = 2` never reached, yet the error is cleared. -/
def incrDemoClient : Client :=
  mkClient [{mkHost "a" .miss with incrReply := .error 3},
    {mkHost "b" .miss with incrReply := .ok 7}] 2 2 2

/-- Witness for C8's amended theorem: result `7`, error cleared although
only one backend succeeded (`W = 2`). -/
theorem incr_best_effort_maximal_witness :
    (clientIncr incrDemoClient "k" 1).contacted = (incrStopSeg incrDemoClient "k").map (·.Addr) ∧
    (clientIncr incrDemoClient "k" 1).result
        = ((incrStopSeg incrDemoClient "k").filterMap incrVal).foldl max 0 ∧
    (clientIncr incrDemoClient "k" 1).err = none := by
  have h := incr_best_effort_maximal incrDemoClient "k" 1
  exact ⟨h.1, h.2.2.1, h.2.2.2.2 (by decide)⟩

/-! ### getMulti quorum stop and partial success (claim C7) -/

/-- Whether a backend's `Get` reply carries a value. -/
def isHit (h : Host) : Bool :=
  match h.getReply with
  | .hit _ => true
  | _ => false

/-- The `-10` fault feedback events produced while walking a list of
backends on the `Get` path (one per transport error, in order). -/
def getErrFb (key : String) (l : List Host) : List Feedback :=
  l.filterMap (fun g =>
    match g.getReply with
    | .err _ => some ⟨g.Addr, key, .fault10, true⟩
    | _ => none)

/-- If the `Get` walk reaches a backend holding the value — every earlier
remaining candidate is hit-free and the confirmed-miss condition never
fires on the way — it returns that backend's value immediately, with the
feedback fan-out to all previously contacted candidates. -/
theorem getLoop_hit (Rp Np : Nat) (key : String) (hosts : List Host) (h : Host)
    (it : Item) (post : List Host) (hhit : h.getReply = .hit it) :
    ∀ (mid done : List Host) (cnt : Nat) (r0 : Option Item) (e0 : Option GoErr)
      (con : List String) (fb : List Feedback),
      hosts = done ++ mid ++ h :: post →
      (∀ g ∈ mid, isHit g = false) →
      (∀ j, j < mid.length → ¬(Rp ≤ cnt + okCount (mid.take (j + 1)) ∧
          Np ≤ done.length + j + 1)) →
      getLoop Rp Np key hosts (mid ++ h :: post) done.length cnt r0 e0 con fb =
        some ⟨some it, [h.Addr], none,
          con ++ (mid ++ [h]).map (·.Addr),
          fb ++ getErrFb key mid ++ [⟨h.Addr, key, .latency, false⟩]
             ++ (done ++ mid).map (fun g => ⟨g.Addr, key, .flat1, false⟩)⟩ := by
  intro mid
  induction mid with
  | nil =>
    intro done cnt r0 e0 con fb hh _ _
    have htake : hosts.take done.length = done := by
      rw [hh]
      simpa using List.take_left done (h :: post)
    simp [getLoop, hhit, getErrFb, htake]
  | cons g mid ih =>
    intro done cnt r0 e0 con fb hh hmid hne
    have hgnh : isHit g = false := hmid g (by simp)
    have hne0 := hne 0 (by simp)
    cases hg : g.getReply with
    | hit jt => simp [isHit, hg] at hgnh
    | err e =>
      have hok : isGetOk g = false := by simp [isGetOk, hg]
      have hcond : ¬(cnt ≥ Rp ∧ done.length + 1 ≥ Np) := by
        simp [List.take_succ_cons, okCount, hok] at hne0
        omega
      have hstep : getLoop Rp Np key hosts ((g :: mid) ++ h :: post) done.length cnt r0 e0 con fb
          = getLoop Rp Np key hosts (mid ++ h :: post) (done.length + 1) cnt none
              (some (.backend e)) (con ++ [g.Addr]) (fb ++ [⟨g.Addr, key, .fault10, true⟩]) := by
        simp only [List.cons_append, getLoop, hg]
        rw [if_neg hcond]
        rfl
      have hIH := ih (done ++ [g]) cnt none (some (.backend e)) (con ++ [g.Addr])
        (fb ++ [⟨g.Addr, key, .fault10, true⟩])
        (by rw [hh]; simp)
        (fun g' hg' => hmid g' (by simp [hg']))
        (fun j hj => by
          have := hne (j + 1) (by simpa using Nat.succ_lt_succ hj)
          simp [List.take_succ_cons, okCount, hok] at this ⊢
          omega)
      have hlen : (done ++ [g]).length = done.length + 1 := by simp
      rw [hlen] at hIH
      rw [hstep, hIH]
      simp [getErrFb, hg, List.append_assoc]
    | miss =>
      have hok : isGetOk g = true := by simp [isGetOk, hg]
      have hcond : ¬(cnt + 1 ≥ Rp ∧ done.length + 1 ≥ Np) := by
        simp [List.take_succ_cons, okCount, hok] at hne0
        omega
      have hstep : getLoop Rp Np key hosts ((g :: mid) ++ h :: post) done.length cnt r0 e0 con fb
          = getLoop Rp Np key hosts (mid ++ h :: post) (done.length + 1) (cnt + 1) none
              none (con ++ [g.Addr]) fb := by
        simp only [List.cons_append, getLoop, hg]
        rw [if_neg hcond]
        rfl
      have hIH := ih (done ++ [g]) (cnt + 1) none none (con ++ [g.Addr]) fb
        (by rw [hh]; simp)
        (fun g' hg' => hmid g' (by simp [hg']))
        (fun j hj => by
          have := hne (j + 1) (by simpa using Nat.succ_lt_succ hj)
          simp [List.take_succ_cons, okCount, hok] at this ⊢
          omega)
      have hlen : (done ++ [g]).length = done.length + 1 := by simp
      rw [hlen] at hIH
      rw [hstep, hIH]
      simp [getErrFb, hg, List.append_assoc]

/-- Claim C1: `Get` contacts the ranked candidates strictly in rank order
and, provided the confirmed-miss stop never fires earlier, returns at the
first backend whose read succeeds with a value: that backend's item,
targets = its address alone, error nil, and a flat `-1` non-fault feedback
to every backend ranked ahead of it — including backends that errored and
already received the `-10` fault penalty. -/
theorem get_serves_first_hit_in_rank_order :
    ∀ (c : Client) (key : String) (pre post : List Host) (h : Host) (it : Item),
      c.scheduler.getHostsByKey key = pre ++ h :: post →
      (∀ g ∈ pre, isHit g = false) →
      h.getReply = .hit it →
      (∀ j, j < pre.length → ¬(c.R ≤ okCount (pre.take (j + 1)) ∧ c.N ≤ j + 1)) →
      clientGet c key =
        some ⟨some it, [h.Addr], none, (pre ++ [h]).map (·.Addr),
          getErrFb key pre ++ [⟨h.Addr, key, .latency, false⟩]
            ++ pre.map (fun g => ⟨g.Addr, key, .flat1, false⟩)⟩ := by
  intro c key pre post h it hh hpre hhit hne
  have hmain := getLoop_hit c.R c.N key (c.scheduler.getHostsByKey key) h it post hhit pre []
    0 none none [] [] (by simpa using hh) hpre
    (fun j hj => by simpa using hne j hj)
  simp only [List.length_nil, List.nil_append, List.append_nil] at hmain
  simp only [clientGet]
  rw [show c.scheduler.getHostsByKey key = pre ++ h :: post from hh] at hmain ⊢
  rw [hmain]

/-- The spec's section-8 `Get` scenario: `N=3, W=2, R=2`, backend a
errors, backend b holds the value. -/
def getDemoClient : Client :=
  mkClient [mkHost "a" (.err 7), mkHost "b" (.hit ⟨5⟩), mkHost "c" .miss] 3 2 2

/-- Witness for C1 at the section-8 scenario: b's value is returned,
targets `["b"]`, a got `-10` then a flat `-1`. -/
theorem get_serves_first_hit_in_rank_order_witness :
    ((∀ g ∈ [mkHost "a" (.err 7)], isHit g = false) ∧
      (mkHost "b" (.hit ⟨5⟩)).getReply = .hit ⟨5⟩) ∧
    clientGet getDemoClient "k" =
      some ⟨some ⟨5⟩, ["b"], none, ["a", "b"],
        getErrFb "k" [mkHost "a" (.err 7)] ++ [⟨"b", "k", .latency, false⟩]
          ++ [mkHost "a" (.err 7)].map (fun g => ⟨g.Addr, "k", .flat1, false⟩)⟩ := by
  constructor
  · exact ⟨by decide, rfl⟩
  · have h := get_serves_first_hit_in_rank_order getDemoClient "k"
      [mkHost "a" (.err 7)] [mkHost "c" .miss] (mkHost "b" (.hit ⟨5⟩)) ⟨5⟩
      rfl (by decide) rfl (by decide)
    simpa using h

/-- If the confirmed-miss condition first fires at backend `h` (no earlier
candidate hit, no earlier exit), the walk returns nil value, nil error and
the first three candidates as targets — or panics when fewer than three
candidates exist. -/
theorem getLoop_missExit (Rp Np : Nat) (key : String) (hosts : List Host) (h : Host)
    (post : List Host) (hnh : isHit h = false) :
    ∀ (mid done : List Host) (cnt : Nat) (r0 : Option Item) (e0 : Option GoErr)
      (con : List String) (fb : List Feedback),
      hosts = done ++ mid ++ h :: post →
      (∀ g ∈ mid, isHit g = false) →
      (∀ j, j < mid.length → ¬(Rp ≤ cnt + okCount (mid.take (j + 1)) ∧
          Np ≤ done.length + j + 1)) →
      Rp ≤ cnt + okCount (mid ++ [h]) →
      Np ≤ done.length + mid.length + 1 →
      3 ≤ hosts.length →
      getLoop Rp Np key hosts (mid ++ h :: post) done.length cnt r0 e0 con fb =
        some ⟨none, (hosts.take 3).map (·.Addr), none,
          con ++ (mid ++ [h]).map (·.Addr), fb ++ getErrFb key (mid ++ [h])⟩ := by
  intro mid
  induction mid with
  | nil =>
    intro done cnt r0 e0 con fb hh _ _ hR hN hlen
    have hlt : ¬ hosts.length < 3 := by omega
    simp only [List.length_nil, Nat.add_zero] at hN
    cases hg : h.getReply with
    | hit jt => simp [isHit, hg] at hnh
    | err e =>
      have hok : isGetOk h = false := by simp [isGetOk, hg]
      have hcond : cnt ≥ Rp ∧ done.length + 1 ≥ Np := by
        simp [okCount, hok] at hR
        constructor <;> omega
      simp only [List.nil_append, getLoop, hg]
      rw [if_pos hcond, if_neg hlt]
      simp [getErrFb, hg]
    | miss =>
      have hok : isGetOk h = true := by simp [isGetOk, hg]
      have hcond : cnt + 1 ≥ Rp ∧ done.length + 1 ≥ Np := by
        simp [okCount, hok] at hR
        constructor <;> omega
      simp only [List.nil_append, getLoop, hg]
      rw [if_pos hcond, if_neg hlt]
      simp [getErrFb, hg]
  | cons g mid ih =>
    intro done cnt r0 e0 con fb hh hmid hne hR hN hlen
    have hgnh : isHit g = false := hmid g (by simp)
    have hne0 := hne 0 (by simp)
    cases hg : g.getReply with
    | hit jt => simp [isHit, hg] at hgnh
    | err e =>
      have hok : isGetOk g = false := by simp [isGetOk, hg]
      have hcond : ¬(cnt ≥ Rp ∧ done.length + 1 ≥ Np) := by
        simp [List.take_succ_cons, okCount, hok] at hne0
        omega
      have hstep : getLoop Rp Np key hosts ((g :: mid) ++ h :: post) done.length cnt r0 e0 con fb
          = getLoop Rp Np key hosts (mid ++ h :: post) (done.length + 1) cnt none
              (some (.backend e)) (con ++ [g.Addr]) (fb ++ [⟨g.Addr, key, .fault10, true⟩]) := by
        simp only [List.cons_append, getLoop, hg]
        rw [if_neg hcond]
        rfl
      have hIH := ih (done ++ [g]) cnt none (some (.backend e)) (con ++ [g.Addr])
        (fb ++ [⟨g.Addr, key, .fault10, true⟩])
        (by rw [hh]; simp)
        (fun g' hg' => hmid g' (by simp [hg']))
        (fun j hj => by
          have := hne (j + 1) (by simpa using Nat.succ_lt_succ hj)
          simp [List.take_succ_cons, okCount, hok] at this ⊢
          omega)
        (by simp [List.cons_append, okCount, hok] at hR ⊢; omega)
        (by simp at hN ⊢; omega)
        hlen
      have hlen' : (done ++ [g]).length = done.length + 1 := by simp
      rw [hlen'] at hIH
      rw [hstep, hIH]
      simp [getErrFb, hg, List.append_assoc]
    | miss =>
      have hok : isGetOk g = true := by simp [isGetOk, hg]
      have hcond : ¬(cnt + 1 ≥ Rp ∧ done.length + 1 ≥ Np) := by
        simp [List.take_succ_cons, okCount, hok] at hne0
        omega
      have hstep : getLoop Rp Np key hosts ((g :: mid) ++ h :: post) done.length cnt r0 e0 con fb
          = getLoop Rp Np key hosts (mid ++ h :: post) (done.length + 1) (cnt + 1) none
              none (con ++ [g.Addr]) fb := by
        simp only [List.cons_append, getLoop, hg]
        rw [if_neg hcond]
        rfl
      have hIH := ih (done ++ [g]) (cnt + 1) none none (con ++ [g.Addr]) fb
        (by rw [hh]; simp)
        (fun g' hg' => hmid g' (by simp [hg']))
        (fun j hj => by
          have := hne (j + 1) (by simpa using Nat.succ_lt_succ hj)
          simp [List.take_succ_cons, okCount, hok] at this ⊢
          omega)
        (by simp [List.cons_append, okCount, hok] at hR ⊢; omega)
        (by simp at hN ⊢; omega)
        hlen
      have hlen' : (done ++ [g]).length = done.length + 1 := by simp
      rw [hlen'] at hIH
      rw [hstep, hIH]
      simp [getErrFb, hg, List.append_assoc]

/-- Any non-panicking `Get` outcome with a nil value carries either
exactly the first three candidates' addresses as targets (the
confirmed-miss branch) or an empty target list (the hit branch never
returns a nil value, and the fall-through exit never assigns targets). -/
theorem getLoop_nil_targets (Rp Np : Nat) (key : String) (hosts : List Host) :
    ∀ (rest : List Host) (i cnt : Nat) (r0 : Option Item) (e0 : Option GoErr)
      (con : List String) (fb : List Feedback) (res : GetRes),
      getLoop Rp Np key hosts rest i cnt r0 e0 con fb = some res →
      res.r = none →
      res.targets = (hosts.take 3).map (·.Addr) ∨ res.targets = [] := by
  intro rest
  induction rest with
  | nil =>
    intro i cnt r0 e0 con fb res hres _
    simp only [getLoop] at hres
    cases hres
    right
    rfl
  | cons h rest ih =>
    intro i cnt r0 e0 con fb res hres hnil
    cases hg : h.getReply with
    | err e =>
      simp only [getLoop, hg] at hres
      by_cases hc : cnt ≥ Rp ∧ i + 1 ≥ Np
      · rw [if_pos hc] at hres
        by_cases hlen : hosts.length < 3
        · rw [if_pos hlen] at hres
          cases hres
        · rw [if_neg hlen] at hres
          cases hres
          left
          rfl
      · rw [if_neg hc] at hres
        exact ih _ _ _ _ _ _ res hres hnil
    | miss =>
      simp only [getLoop, hg] at hres
      by_cases hc : cnt + 1 ≥ Rp ∧ i + 1 ≥ Np
      · rw [if_pos hc] at hres
        by_cases hlen : hosts.length < 3
        · rw [if_pos hlen] at hres
          cases hres
        · rw [if_neg hlen] at hres
          cases hres
          left
          rfl
      · rw [if_neg hc] at hres
        exact ih _ _ _ _ _ _ res hres hnil
    | hit it =>
      simp only [getLoop, hg] at hres
      cases hres
      simp at hnil

/-- Counterexample for C2 as stated, with all the spec's parameter
invariants respected (`N = 3` candidates, `W = R = 2 ≤ N`): backends a
and b error and c replies miss, so `Get` exhausts the list and returns
nil value and nil error through the fall-through path even though only
one backend (fewer than `R = 2`) responded without a transport error —
and the target list is empty rather than the first three candidates. -/
theorem get_nil_nil_without_quorum_cex :
    clientGet (mkClient [mkHost "a" (.err 1), mkHost "b" (.err 2), mkHost "c" .miss] 3 2 2) "k"
        = some ⟨none, [], none, ["a", "b", "c"],
            [⟨"a", "k", .fault10, true⟩, ⟨"b", "k", .fault10, true⟩]⟩ ∧
    okCount [mkHost "a" (.err 1), mkHost "b" (.err 2), mkHost "c" .miss] = 1 ∧
    ¬(2 ≤ (1 : Nat)) :=
  ⟨rfl, rfl, by decide⟩

/-- Claim C2, amended: when the confirmed-miss branch fires — at the first
candidate where at least `R` contacted backends have responded without
transport error and at least `N` candidates have been attempted, no
earlier candidate having held the value — `Get` returns nil value, nil
error and exactly the first three candidates' addresses as targets (with
at least three candidates required on pain of panic); the exhausted
fall-through path can also return nil value and nil error, but then with
an empty target list: every nil-value outcome carries either exactly the
first three candidates' addresses or no targets at all. -/
theorem get_confirmed_miss_branch :
    (∀ (c : Client) (key : String) (pre post : List Host) (h : Host),
      c.scheduler.getHostsByKey key = pre ++ h :: post →
      (∀ g ∈ pre, isHit g = false) →
      isHit h = false →
      (∀ j, j < pre.length → ¬(c.R ≤ okCount (pre.take (j + 1)) ∧ c.N ≤ j + 1)) →
      c.R ≤ okCount (pre ++ [h]) →
      c.N ≤ pre.length + 1 →
      3 ≤ (c.scheduler.getHostsByKey key).length →
      clientGet c key =
        some ⟨none, ((c.scheduler.getHostsByKey key).take 3).map (·.Addr), none,
          (pre ++ [h]).map (·.Addr), getErrFb key (pre ++ [h])⟩) ∧
    (∀ (c : Client) (key : String) (res : GetRes),
      clientGet c key = some res →
      res.r = none →
      res.targets = ((c.scheduler.getHostsByKey key).take 3).map (·.Addr) ∨
        res.targets = []) := by
  constructor
  · intro c key pre post h hh hpre hnh hne hR hN hlen
    have hmain := getLoop_missExit c.R c.N key (c.scheduler.getHostsByKey key) h post hnh pre []
      0 none none [] [] (by simpa using hh) hpre
      (fun j hj => by simpa using hne j hj)
      (by simpa using hR) (by simpa using hN) hlen
    simp only [List.length_nil, List.nil_append, List.append_nil] at hmain
    simp only [clientGet]
    rw [show c.scheduler.getHostsByKey key = pre ++ h :: post from hh] at hmain ⊢
    rw [hmain]
  · intro c key res hres hnil
    exact getLoop_nil_targets c.R c.N key (c.scheduler.getHostsByKey key)
      _ 0 0 none none [] [] res hres hnil

/-- A three-candidate all-miss ranked list with `N = 3, R = 2`. -/
def getMissDemoClient : Client :=
  mkClient [mkHost "a" .miss, mkHost "b" .miss, mkHost "c" .miss] 3 2 2

/-- Witness for C2's amended theorem: the miss branch fires at the third
candidate and the targets are the three candidates' addresses; the
outcome-characterization part is instantiated at the same run. -/
theorem get_confirmed_miss_branch_witness :
    ((2 ≤ okCount ([mkHost "a" .miss, mkHost "b" .miss] ++ [mkHost "c" .miss])) ∧
      (3 ≤ ([mkHost "a" .miss, mkHost "b" .miss] : List Host).length + 1)) ∧
    clientGet getMissDemoClient "k" =
      some ⟨none, ((getMissDemoClient.scheduler.getHostsByKey "k").take 3).map (·.Addr), none,
        ([mkHost "a" .miss, mkHost "b" .miss] ++ [mkHost "c" .miss]).map (·.Addr),
        getErrFb "k" ([mkHost "a" .miss, mkHost "b" .miss] ++ [mkHost "c" .miss])⟩ ∧
    ((⟨none, ["a", "b", "c"], none, ["a", "b", "c"], []⟩ : GetRes).targets
        = ((getMissDemoClient.scheduler.getHostsByKey "k").take 3).map (·.Addr) ∨
      (⟨none, ["a", "b", "c"], none, ["a", "b", "c"], []⟩ : GetRes).targets = []) :=
  ⟨⟨by decide, by decide⟩,
    get_confirmed_miss_branch.1 getMissDemoClient "k"
      [mkHost "a" .miss, mkHost "b" .miss] [] (mkHost "c" .miss)
      rfl (by decide) rfl (by decide) (by decide) (by decide) (by decide),
    get_confirmed_miss_branch.2 getMissDemoClient "k"
      ⟨none, ["a", "b", "c"], none, ["a", "b", "c"], []⟩ rfl rfl⟩

end Beanseye
